import Mathlib

/-!
Shallow embedding of the thumbnail resizer Lambda
(`src/lib/ThumbnailingBucket.resizer.ts`) and proofs about it.

JavaScript strings are modelled as `List Char`, buffers as `List Nat`
(byte lists).  The AWS SDK, `sharp`, and the environment are modelled as
oracles collected in a `World` structure; the handler is a pure function
of the world and the event that additionally returns the ordered trace
of S3 requests it issued.
-/

set_option maxRecDepth 100000

namespace ThumbnailResizer

abbrev Str := List Char

abbrev Bytes := List Nat

/-! ## Key Decoder: `pathParts`

The source uses the regex `^(.+)\.(.+?)$`: a greedy head group, a dot,
and a non-greedy non-empty tail group.  The regex matches iff some `.`
has a non-empty part before it and a non-empty part after it, and the
backtracking order selects the last `.` that has a non-empty tail.
`splitLastDot` returns the split at the last dot that has a non-empty
tail (head possibly empty); `pathParts` additionally rejects an empty
head, which corresponds to the `(.+)` group. -/

def splitLastDot : Str → Option (Str × Str)
  | [] => none
  | c :: rest =>
    match splitLastDot rest with
    | some (b, e) => some (c :: b, e)
    | none => if c = '.' ∧ rest ≠ [] then some ([], rest) else none

/-- Source function `pathParts`: extracts the extension from a path and
returns `(path without extension, extension)`; on no regex match it
returns `(name, "")`. -/
def pathParts (name : Str) : Str × Str :=
  match splitLastDot name with
  | some (b, e) => if b = [] then (name, []) else (b, e)
  | none => (name, [])

/-! ### Correctness lemmas for `splitLastDot` -/

theorem splitLastDot_sound : ∀ s b e, splitLastDot s = some (b, e) →
    s = b ++ '.' :: e ∧ e ≠ [] := by
  intro s
  induction s with
  | nil => intro b e h; simp [splitLastDot] at h
  | cons c rest ih =>
    intro b e h
    unfold splitLastDot at h
    cases hr : splitLastDot rest with
    | some p =>
      obtain ⟨b', e'⟩ := p
      rw [hr] at h
      simp at h
      obtain ⟨hb, he⟩ := h
      obtain ⟨hs, hne⟩ := ih b' e' hr
      subst hb; subst he
      exact ⟨by rw [hs]; rfl, hne⟩
    | none =>
      rw [hr] at h
      by_cases hc : c = '.' ∧ rest ≠ []
      · simp [hc] at h
        obtain ⟨hb, he⟩ := h
        subst hb; subst he
        exact ⟨by rw [hc.1]; rfl, hc.2⟩
      · simp [hc] at h

theorem splitLastDot_none : ∀ s, splitLastDot s = none →
    ∀ b e, e ≠ [] → s ≠ b ++ '.' :: e := by
  intro s
  induction s with
  | nil =>
    intro _ b e _ habs
    simp at habs
  | cons c rest ih =>
    intro h b e hne habs
    unfold splitLastDot at h
    cases hr : splitLastDot rest with
    | some p => rw [hr] at h; obtain ⟨b', e'⟩ := p; simp at h
    | none =>
      rw [hr] at h
      cases b with
      | nil =>
        simp at habs
        obtain ⟨hc, hrest⟩ := habs
        subst hc; subst hrest
        simp [hne] at h
      | cons c' b' =>
        simp at habs
        obtain ⟨hc, hrest⟩ := habs
        exact ih hr b' e hne hrest

/-- Value of a hexadecimal digit (0-9, A-F, a-f, by character code). -/
def hexVal (c : Char) : Option Nat :=
  let n := c.toNat
  if 48 ≤ n ∧ n ≤ 57 then some (n - 48)
  else if 65 ≤ n ∧ n ≤ 70 then some (n - 55)
  else if 97 ≤ n ∧ n ≤ 102 then some (n - 87)
  else none

/-- A scanned token of a URI component: a raw character, or one byte
contributed by a `%XX` escape sequence. -/
inductive UriTok where
  | raw (c : Char)
  | byte (b : Nat)
deriving DecidableEq

def uriTokens : Str → Option (List UriTok)
  | [] => some []
  | '%' :: rest =>
    match rest with
    | h :: l :: rest' =>
      match hexVal h, hexVal l with
      | some hv, some lv => (uriTokens rest').map (UriTok.byte (16 * hv + lv) :: ·)
      | _, _ => none
    | _ => none
  | c :: rest => (uriTokens rest).map (UriTok.raw c :: ·)

/-- Is `b` a UTF-8 continuation byte? -/
def isCont (b : Nat) : Bool := 0x80 ≤ b ∧ b < 0xC0

def contVal (b : Nat) : Nat := b - 0x80

def uriDecodeToks : List UriTok → Option Str
  | [] => some []
  | .raw c :: rest => (uriDecodeToks rest).map (c :: ·)
  | .byte b :: rest =>
    if b < 0x80 then (uriDecodeToks rest).map (Char.ofNat b :: ·)
    else if 0xC2 ≤ b ∧ b < 0xE0 then
      match rest with
      | .byte b1 :: rest' =>
        if isCont b1 then
          (uriDecodeToks rest').map (Char.ofNat ((b - 0xC0) * 64 + contVal b1) :: ·)
        else none
      | _ => none
    else if 0xE0 ≤ b ∧ b < 0xF0 then
      match rest with
      | .byte b1 :: .byte b2 :: rest' =>
        if isCont b1 ∧ isCont b2 then
          let v := (b - 0xE0) * 4096 + contVal b1 * 64 + contVal b2
          if 0x800 ≤ v ∧ ¬ (0xD800 ≤ v ∧ v ≤ 0xDFFF) then
            (uriDecodeToks rest').map (Char.ofNat v :: ·)
          else none
        else none
      | _ => none
    else if 0xF0 ≤ b ∧ b < 0xF5 then
      match rest with
      | .byte b1 :: .byte b2 :: .byte b3 :: rest' =>
        if isCont b1 ∧ isCont b2 ∧ isCont b3 then
          let v := (b - 0xF0) * 262144 + contVal b1 * 4096 + contVal b2 * 64 + contVal b3
          if 0x10000 ≤ v ∧ v ≤ 0x10FFFF then
            (uriDecodeToks rest').map (Char.ofNat v :: ·)
          else none
        else none
      | _ => none
    else none

def decodeURIComponent (s : Str) : Option Str :=
  (uriTokens s).bind uriDecodeToks

/-- Model of `key.replace(/\+/g, ' ')` from the source. -/
def plusToSpace (s : Str) : Str :=
  s.map (fun c => if c = '+' then ' ' else c)

/-- The key decoding performed by the handler (line 27 of the source):
`decodeURIComponent(s3Event.s3.object.key.replace(/\+/g, ' '))`. -/
def decodeKey (s : Str) : Option Str :=
  decodeURIComponent (plusToSpace s)

/-- Modelled from the spec (C9's wording), for comparison with
`decodeKey`: percent-decoding applied first, then the literal `+` → space
substitution. -/
def decodeKeySpecOrder (s : Str) : Option Str :=
  (decodeURIComponent s).map plusToSpace

/-! ## `JSON.stringify` for the manifest value shape -/

def hexDigitChar (n : Nat) : Char :=
  if n < 10 then Char.ofNat ('0'.toNat + n) else Char.ofNat ('a'.toNat + n - 10)

def hex4 (n : Nat) : Str :=
  [hexDigitChar (n / 4096 % 16), hexDigitChar (n / 256 % 16),
   hexDigitChar (n / 16 % 16), hexDigitChar (n % 16)]

def jsonEscapeChar (c : Char) : Str :=
  if c = '"' then ['\\', '"']
  else if c = '\\' then ['\\', '\\']
  else if c = '\x08' then ['\\', 'b']
  else if c = '\x09' then ['\\', 't']
  else if c = '\x0a' then ['\\', 'n']
  else if c = '\x0c' then ['\\', 'f']
  else if c = '\x0d' then ['\\', 'r']
  else if c.toNat < 0x20 then '\\' :: 'u' :: hex4 c.toNat
  else [c]

def jsonStringLit (s : Str) : Str :=
  '"' :: (s.flatMap jsonEscapeChar) ++ ['"']

/-- One element pushed onto `list` in the source: an object literal with
fields `key`, `url`, `width`, `height` in that insertion order. -/
structure ManifestEntry where
  key : Str
  url : Str
  width : Nat
  height : Nat
deriving DecidableEq

def entryJson (e : ManifestEntry) : Str :=
  '\x7b' :: (jsonStringLit "key".toList ++ [':'] ++ jsonStringLit e.key
    ++ [','] ++ jsonStringLit "url".toList ++ [':'] ++ jsonStringLit e.url
    ++ [','] ++ jsonStringLit "width".toList ++ [':'] ++ (Nat.repr e.width).toList
    ++ [','] ++ jsonStringLit "height".toList ++ [':'] ++ (Nat.repr e.height).toList)
    ++ ['\x7d']

/-- Model of `JSON.stringify(list)` for the manifest array. -/
def jsonEntries (l : List ManifestEntry) : Str :=
  '[' :: (List.intercalate [','] (l.map entryJson)) ++ [']']

/-! ## The S3 / sharp / environment world and the handler -/

inductive JsError where
  | notFound
  | accessDenied
  | decodeError
  | writeError
  | uriError
  | other (msg : Str)
deriving DecidableEq

/-- Shape of `s3Event.s3.object`. -/
structure S3ObjectRef where
  key : Str
deriving DecidableEq

/-- Shape of `s3Event.s3.bucket`. -/
structure S3BucketRef where
  name : Str
deriving DecidableEq

/-- Shape of `s3Event.s3`. -/
structure S3RecordS3 where
  bucket : S3BucketRef
  object : S3ObjectRef
deriving DecidableEq

structure S3EventRecord where
  s3 : S3RecordS3
deriving DecidableEq

structure S3Event where
  Records : List S3EventRecord
deriving DecidableEq

/-- The body of a `putObject` request: a `Buffer` (variant bytes) or a
string (the JSON manifest). -/
inductive PutBody where
  | buffer (b : Bytes)
  | text (s : Str)
deriving DecidableEq

/-- One S3 request issued by the handler, in issue order.  The bucket of
a put is `Option Str` because `process.env.DEST_BUCKET!` is `undefined`
when the environment variable is absent: the non-null assertion performs
no runtime check. -/
inductive Action where
  | getObject (bucket : Str) (key : Str)
  | putObject (bucket : Option Str) (key : Str) (body : PutBody) (contentType : Option Str)
deriving DecidableEq

/-- Result of the sharp resize call: the encoded bytes `out.data` and
the encoder-chosen format `out.info.format`. -/
structure ResizeOut where
  data : Bytes
  format : Str
deriving DecidableEq

/-- The external world: the environment variable, the S3 client and the
sharp library, as oracles. -/
structure World where
  destBucket : Option Str
  getObject : Str → Str → Except JsError Bytes
  sharpResize : Bytes → Nat → Except JsError ResizeOut
  putObject : Option Str → Str → PutBody → Option Str → Except JsError Unit

/-- JavaScript template-literal interpolation of a possibly-`undefined`
string value. -/
def jsStr : Option Str → Str
  | some s => s
  | none => "undefined".toList

def natStr (n : Nat) : Str := (Nat.repr n).toList

/-- The hardcoded Size Specification `[50, 100, 200]`. -/
def sizes : List Nat := [50, 100, 200]

/-- Template literal for a variant destination key: base, size twice, and
the encoder format. -/
def variantKey (base : Str) (size : Nat) (format : Str) : Str :=
  base ++ ['-'] ++ natStr size ++ ['x'] ++ natStr size ++ ['.'] ++ format

/-- Template literal for the retrieval URL of a destination key. -/
def variantUrl (destBucket : Option Str) (destKey : Str) : Str :=
  "https://".toList ++ jsStr destBucket ++ ".s3.amazonaws.com/".toList ++ destKey

/-- Template literal for the manifest key of a decoded source key. -/
def manifestKey (key : Str) : Str := key ++ ".thumbnails.json".toList

def appJson : Str := "application/json".toList

def mkEntry (destBucket : Option Str) (destKey : Str) (size : Nat) : ManifestEntry :=
  ⟨destKey, variantUrl destBucket destKey, size, size⟩

/-- The inner `for (let size of [50, 100, 200])` loop: resize, put the
variant, accumulate the manifest entry.  Returns the trace of issued
requests and either the accumulated `list` or the first error. -/
def processSizes (w : World) (base : Str) (srcBody : Bytes) :
    List Nat → List Action × Except JsError (List ManifestEntry)
  | [] => ([], .ok [])
  | size :: rest =>
    match w.sharpResize srcBody size with
    | .error e => ([], .error e)
    | .ok out =>
      match w.putObject w.destBucket (variantKey base size out.format) (.buffer out.data) none with
      | .error e =>
        ([.putObject w.destBucket (variantKey base size out.format) (.buffer out.data) none],
         .error e)
      | .ok _ =>
        match processSizes w base srcBody rest with
        | (tr, .error e) =>
          (.putObject w.destBucket (variantKey base size out.format) (.buffer out.data) none :: tr,
           .error e)
        | (tr, .ok l) =>
          (.putObject w.destBucket (variantKey base size out.format) (.buffer out.data) none :: tr,
           .ok (mkEntry w.destBucket (variantKey base size out.format) size :: l))

/-- One iteration of the `for (const s3Event of event.Records)` loop:
decode the key, fetch the object, produce and put the variants, then put
the manifest. -/
def processRecord (w : World) (r : S3EventRecord) : List Action × Except JsError Unit :=
  match decodeKey r.s3.object.key with
  | none => ([], .error .uriError)
  | some key =>
    match w.getObject r.s3.bucket.name key with
    | .error e => ([.getObject r.s3.bucket.name key], .error e)
    | .ok body =>
      match processSizes w (pathParts key).1 body sizes with
      | (tr, .error e) => (.getObject r.s3.bucket.name key :: tr, .error e)
      | (tr, .ok list) =>
        match w.putObject w.destBucket (manifestKey key) (.text (jsonEntries list)) (some appJson) with
        | .error e =>
          (.getObject r.s3.bucket.name key :: tr
            ++ [.putObject w.destBucket (manifestKey key) (.text (jsonEntries list)) (some appJson)],
           .error e)
        | .ok _ =>
          (.getObject r.s3.bucket.name key :: tr
            ++ [.putObject w.destBucket (manifestKey key) (.text (jsonEntries list)) (some appJson)],
           .ok ())

/-- The record loop: stops at the first record whose processing throws
(the `await`ed rejection propagates out of the `for` loop). -/
def processRecords (w : World) : List S3EventRecord → List Action × Except JsError Unit
  | [] => ([], .ok ())
  | r :: rs =>
    match processRecord w r with
    | (tr, .error e) => (tr, .error e)
    | (tr, .ok _) =>
      match processRecords w rs with
      | (tr', res) => (tr ++ tr', res)

/-- The exported `handler`. -/
def handler (w : World) (event : S3Event) : List Action × Except JsError Unit :=
  processRecords w event.Records

/-! ## Concrete worlds and records used by witnesses -/

/-- A world in which every external operation succeeds. -/
def okWorld : World where
  destBucket := some "thumbs".toList
  getObject := fun _ _ => .ok [1, 2, 3]
  sharpResize := fun _ size => .ok ⟨[size], "jpeg".toList⟩
  putObject := fun _ _ _ _ => .ok ()

def rec1 : S3EventRecord := ⟨⟨⟨"src".toList⟩, ⟨"vacation.jpg".toList⟩⟩⟩

/-! ## Structural lemmas about the loops -/

/-- Every request issued by the size loop is a variant put: destination
bucket, key built from the base and the encoder's output format, buffer
body, no content type. -/
theorem processSizes_mem (w : World) (base : Str) (body : Bytes) :
    ∀ (szs : List Nat) (a : Action), a ∈ (processSizes w base body szs).1 →
    ∃ size out, size ∈ szs ∧ w.sharpResize body size = .ok out ∧
      a = .putObject w.destBucket (variantKey base size out.format) (.buffer out.data) none := by
  intro szs
  induction szs with
  | nil => intro a ha; simp [processSizes] at ha
  | cons size rest ih =>
    intro a ha
    cases hres : w.sharpResize body size with
    | error e => simp [processSizes, hres] at ha
    | ok out =>
      cases hput : w.putObject w.destBucket (variantKey base size out.format)
          (.buffer out.data) none with
      | error e =>
        simp [processSizes, hres, hput] at ha
        exact ⟨size, out, by simp, hres, ha⟩
      | ok u =>
        cases hrec : processSizes w base body rest with
        | mk tr res =>
          cases res with
          | error e =>
            simp [processSizes, hres, hput, hrec] at ha
            rcases ha with ha | ha
            · exact ⟨size, out, by simp, hres, ha⟩
            · obtain ⟨sz, o, hmem, hr, he⟩ := ih a (by rw [hrec]; exact ha)
              exact ⟨sz, o, by simp [hmem], hr, he⟩
          | ok l =>
            simp [processSizes, hres, hput, hrec] at ha
            rcases ha with ha | ha
            · exact ⟨size, out, by simp, hres, ha⟩
            · obtain ⟨sz, o, hmem, hr, he⟩ := ih a (by rw [hrec]; exact ha)
              exact ⟨sz, o, by simp [hmem], hr, he⟩

/-- When the size loop for the full Size Specification succeeds, the
three resizes succeeded, and the list and trace have exactly the
expected three-element shapes in order 50, 100, 200. -/
theorem processSizes_sizes_ok (w : World) (base : Str) (body : Bytes) (tr : List Action)
    (l : List ManifestEntry) (h : processSizes w base body sizes = (tr, Except.ok l)) :
    ∃ o1 o2 o3 : ResizeOut,
      w.sharpResize body 50 = .ok o1 ∧ w.sharpResize body 100 = .ok o2 ∧
      w.sharpResize body 200 = .ok o3 ∧
      l = [mkEntry w.destBucket (variantKey base 50 o1.format) 50,
           mkEntry w.destBucket (variantKey base 100 o2.format) 100,
           mkEntry w.destBucket (variantKey base 200 o3.format) 200] ∧
      tr = [.putObject w.destBucket (variantKey base 50 o1.format) (.buffer o1.data) none,
            .putObject w.destBucket (variantKey base 100 o2.format) (.buffer o2.data) none,
            .putObject w.destBucket (variantKey base 200 o3.format) (.buffer o3.data) none] := by
  cases h50 : w.sharpResize body 50 with
  | error e => simp [processSizes, sizes, h50] at h
  | ok o1 =>
  cases hp1 : w.putObject w.destBucket (variantKey base 50 o1.format) (.buffer o1.data) none with
  | error e => simp [processSizes, sizes, h50, hp1] at h
  | ok u1 =>
  cases h100 : w.sharpResize body 100 with
  | error e => simp [processSizes, sizes, h50, hp1, h100] at h
  | ok o2 =>
  cases hp2 : w.putObject w.destBucket (variantKey base 100 o2.format) (.buffer o2.data) none with
  | error e => simp [processSizes, sizes, h50, hp1, h100, hp2] at h
  | ok u2 =>
  cases h200 : w.sharpResize body 200 with
  | error e => simp [processSizes, sizes, h50, hp1, h100, hp2, h200] at h
  | ok o3 =>
  cases hp3 : w.putObject w.destBucket (variantKey base 200 o3.format) (.buffer o3.data) none with
  | error e => simp [processSizes, sizes, h50, hp1, h100, hp2, h200, hp3] at h
  | ok u3 =>
  have hcomp : processSizes w base body sizes
      = ([.putObject w.destBucket (variantKey base 50 o1.format) (.buffer o1.data) none,
          .putObject w.destBucket (variantKey base 100 o2.format) (.buffer o2.data) none,
          .putObject w.destBucket (variantKey base 200 o3.format) (.buffer o3.data) none],
         .ok [mkEntry w.destBucket (variantKey base 50 o1.format) 50,
              mkEntry w.destBucket (variantKey base 100 o2.format) 100,
              mkEntry w.destBucket (variantKey base 200 o3.format) 200]) := by
    simp [processSizes, sizes, h50, hp1, h100, hp2, h200, hp3]
  rw [hcomp] at h
  injection h with h1 h2
  injection h2 with h2
  exact ⟨o1, o2, o3, rfl, rfl, rfl, h2.symm, h1.symm⟩

theorem processRecord_fetch_error (w : World) (r : S3EventRecord) (key : Str) (e : JsError)
    (hk : decodeKey r.s3.object.key = some key)
    (hf : w.getObject r.s3.bucket.name key = .error e) :
    processRecord w r = ([.getObject r.s3.bucket.name key], .error e) := by
  simp [processRecord, hk, hf]

theorem processRecord_sizes_error (w : World) (r : S3EventRecord) (key : Str) (body : Bytes)
    (tr : List Action) (e : JsError)
    (hk : decodeKey r.s3.object.key = some key)
    (hf : w.getObject r.s3.bucket.name key = .ok body)
    (hsz : processSizes w (pathParts key).1 body sizes = (tr, .error e)) :
    processRecord w r = (.getObject r.s3.bucket.name key :: tr, .error e) := by
  simp [processRecord, hk, hf, hsz]

theorem processRecord_sizes_ok_trace (w : World) (r : S3EventRecord) (key : Str) (body : Bytes)
    (tr : List Action) (l : List ManifestEntry)
    (hk : decodeKey r.s3.object.key = some key)
    (hf : w.getObject r.s3.bucket.name key = .ok body)
    (hsz : processSizes w (pathParts key).1 body sizes = (tr, .ok l)) :
    (processRecord w r).1 = .getObject r.s3.bucket.name key :: tr
      ++ [.putObject w.destBucket (manifestKey key) (.text (jsonEntries l)) (some appJson)] := by
  cases hput : w.putObject w.destBucket (manifestKey key) (.text (jsonEntries l))
      (some appJson) with
  | error e => simp [processRecord, hk, hf, hsz, hput]
  | ok u => simp [processRecord, hk, hf, hsz, hput]

/-- A record whose processing fails stops the record loop: the failing
record's error is the invocation's result and no action of any later
record is issued. -/
theorem processRecords_cons_error (w : World) (r : S3EventRecord) (rs : List S3EventRecord)
    (e : JsError) (h : (processRecord w r).2 = .error e) :
    processRecords w (r :: rs) = ((processRecord w r).1, .error e) := by
  unfold processRecords
  cases hpr : processRecord w r with
  | mk tr res =>
    rw [hpr] at h
    simp at h
    subst h
    simp

/-- A record whose processing succeeds is followed by the remaining
records; its trace precedes theirs. -/
theorem processRecords_cons_ok (w : World) (r : S3EventRecord) (rs : List S3EventRecord)
    (h : (processRecord w r).2 = .ok ()) :
    processRecords w (r :: rs)
      = ((processRecord w r).1 ++ (processRecords w rs).1, (processRecords w rs).2) := by
  cases hpr : processRecord w r with
  | mk tr res =>
    rw [hpr] at h
    simp at h
    subst h
    cases hrec : processRecords w rs with
    | mk tr' res' =>
      rw [show processRecords w (r :: rs)
          = match processRecord w r with
            | (tr, .error e) => (tr, .error e)
            | (tr, .ok _) =>
              match processRecords w rs with
              | (tr', res) => (tr ++ tr', res) from rfl]
      rw [hpr, hrec]

/-- A string with no dot strictly inside (none that has at least one
character before it and one after it) is returned whole, with an empty
extension. -/
theorem pathParts_eq_self (s : Str) (h : '.' ∉ s.tail.dropLast) : pathParts s = (s, []) := by
  unfold pathParts
  cases hsp : splitLastDot s with
  | none => rfl
  | some p =>
    obtain ⟨b, e⟩ := p
    obtain ⟨hs, hne⟩ := splitLastDot_sound s b e hsp
    cases b with
    | nil => simp
    | cons c b' =>
      exfalso
      apply h
      rw [hs]
      show '.' ∈ (c :: (b' ++ '.' :: e)).tail.dropLast
      rw [List.tail_cons, List.dropLast_append_cons, List.dropLast_cons_of_ne_nil hne]
      simp

/-- The first request of a record's processing, once the key decodes, is
the fetch of the decoded key, whatever happens afterwards. -/
theorem processRecord_head (w : World) (r : S3EventRecord) (key : Str)
    (hk : decodeKey r.s3.object.key = some key) :
    (processRecord w r).1.head? = some (.getObject r.s3.bucket.name key) := by
  cases hf : w.getObject r.s3.bucket.name key with
  | error e => rw [processRecord_fetch_error w r key e hk hf]; rfl
  | ok body =>
    cases hsz : processSizes w (pathParts key).1 body sizes with
    | mk tr res =>
      cases res with
      | error e => rw [processRecord_sizes_error w r key body tr e hk hf hsz]; rfl
      | ok l => rw [processRecord_sizes_ok_trace w r key body tr l hk hf hsz]; rfl

/-- Same for the whole record loop started on a non-empty batch. -/
theorem processRecords_head (w : World) (r : S3EventRecord) (rs : List S3EventRecord)
    (key : Str) (hk : decodeKey r.s3.object.key = some key) :
    (processRecords w (r :: rs)).1.head? = some (.getObject r.s3.bucket.name key) := by
  have hhead := processRecord_head w r key hk
  cases hpr : (processRecord w r).2 with
  | error e =>
    rw [processRecords_cons_error w r rs e hpr]
    exact hhead
  | ok u =>
    rw [processRecords_cons_ok w r rs (by rw [hpr])]
    cases hl : (processRecord w r).1 with
    | nil => rw [hl] at hhead; simp at hhead
    | cons x xs =>
      rw [hl] at hhead
      simp at hhead
      simp [hhead]

/-- Every put issued while processing one record goes to
`process.env.DEST_BUCKET!`, whatever that value is. -/
theorem processRecord_put_bucket (w : World) (r : S3EventRecord) :
    ∀ a ∈ (processRecord w r).1, ∀ bk k bd ct,
      a = .putObject bk k bd ct → bk = w.destBucket := by
  intro a ha bk k bd ct heq
  cases hk : decodeKey r.s3.object.key with
  | none => simp [processRecord, hk] at ha
  | some key =>
    cases hf : w.getObject r.s3.bucket.name key with
    | error e =>
      rw [processRecord_fetch_error w r key e hk hf] at ha
      simp at ha
      subst ha
      exact absurd heq (by simp)
    | ok body =>
      cases hsz : processSizes w (pathParts key).1 body sizes with
      | mk tr res =>
        have hmem : ∀ a' ∈ tr, ∀ bk' k' bd' ct', a' = .putObject bk' k' bd' ct' →
            bk' = w.destBucket := by
          intro a' ha' bk' k' bd' ct' heq'
          obtain ⟨sz, o, _, _, hshape⟩ :=
            processSizes_mem w (pathParts key).1 body sizes a' (by rw [hsz]; exact ha')
          rw [hshape] at heq'
          injection heq' with h1 _ _ _
          exact h1.symm
        cases res with
        | error e =>
          rw [processRecord_sizes_error w r key body tr e hk hf hsz] at ha
          simp at ha
          rcases ha with ha | ha
          · subst ha; exact absurd heq (by simp)
          · exact hmem a ha bk k bd ct heq
        | ok l =>
          rw [processRecord_sizes_ok_trace w r key body tr l hk hf hsz] at ha
          simp at ha
          rcases ha with ha | ha | ha
          · subst ha; exact absurd heq (by simp)
          · exact hmem a ha bk k bd ct heq
          · rw [ha] at heq
            injection heq with h1 _ _ _
            exact h1.symm

/-- Every put issued by the whole record loop goes to
`process.env.DEST_BUCKET!`. -/
theorem processRecords_put_bucket (w : World) :
    ∀ (rs : List S3EventRecord) (a : Action), a ∈ (processRecords w rs).1 →
      ∀ bk k bd ct, a = .putObject bk k bd ct → bk = w.destBucket := by
  intro rs
  induction rs with
  | nil => intro a ha; simp [processRecords] at ha
  | cons r rest ih =>
    intro a ha bk k bd ct heq
    cases hpr : (processRecord w r).2 with
    | error e =>
      rw [processRecords_cons_error w r rest e hpr] at ha
      exact processRecord_put_bucket w r a ha bk k bd ct heq
    | ok u =>
      rw [processRecords_cons_ok w r rest (by rw [hpr])] at ha
      simp at ha
      rcases ha with ha | ha
      · exact processRecord_put_bucket w r a ha bk k bd ct heq
      · exact ih a ha bk k bd ct heq

def recPlus : S3EventRecord := ⟨⟨⟨"src".toList⟩, ⟨"a%2Bb".toList⟩⟩⟩

def rec2 : S3EventRecord := ⟨⟨⟨"src".toList⟩, ⟨"beach.png".toList⟩⟩⟩

/-- A world whose fetch always fails with NotFound. -/
def fetchFailWorld : World where
  destBucket := some "thumbs".toList
  getObject := fun _ _ => .error .notFound
  sharpResize := fun _ size => .ok ⟨[size], "jpeg".toList⟩
  putObject := fun _ _ _ _ => .ok ()

/-! ## The claims -/

/-- C10: the Key Decoder returns `(s, "")` for every string in which no
dot has a non-empty segment on both sides (no dot strictly inside the
string), in particular for ".hidden" and "name.". -/
theorem C10_degenerate_keys :
    (∀ s : Str, '.' ∉ s.tail.dropLast → pathParts s = (s, []))
    ∧ pathParts ".hidden".toList = (".hidden".toList, [])
    ∧ pathParts "name.".toList = ("name.".toList, []) :=
  ⟨fun s h => pathParts_eq_self s h, by decide, by decide⟩

theorem C10_degenerate_keys_witness :
    '.' ∉ (".hidden".toList : Str).tail.dropLast
    ∧ pathParts ".hidden".toList = (".hidden".toList, []) :=
  ⟨by decide, C10_degenerate_keys.1 _ (by decide)⟩

/-- C8: the raw notification key is decoded by first replacing every
literal '+' with a space and then percent-decoding the result; on
"my+file%20name.jpg" this yields "my file name.jpg", and a
percent-encoded "%2B" survives as a literal '+' because the replacement
happens before decoding. -/
theorem C8_plus_then_percent :
    decodeKey "my+file%20name.jpg".toList = some "my file name.jpg".toList
    ∧ (∀ s : Str, decodeKey s = decodeURIComponent (s.map fun c => if c = '+' then ' ' else c))
    ∧ decodeKey "a%2Bb".toList = some "a+b".toList :=
  ⟨by decide, fun _ => rfl, by decide⟩

/-- C9: the claim fails on the code.  Percent-decoding the raw key
"a%2Bb" first and then substituting '+' with space yields "a b", but the
key the handler actually fetches is "a+b": the code substitutes '+'
before percent-decoding, so a '+' produced by percent-decoding is kept
literal. -/
theorem C9_counterexample :
    decodeKeySpecOrder "a%2Bb".toList = some "a b".toList
    ∧ (processRecord okWorld recPlus).1.head? = some (.getObject "src".toList "a+b".toList)
    ∧ ("a+b".toList : Str) ≠ "a b".toList := by
  refine ⟨by decide, by decide, by decide⟩

/-- C9 (amended): the storage key used for the fetch is recovered by
substituting every literal '+' with a space first and then
percent-decoding: the first request of the batch is the fetch of
`decodeKey raw`, and `decodeKey` is percent-decoding composed with the
prior '+' → space substitution. -/
theorem C9_fetch_key_decoding :
    (∀ (w : World) (r : S3EventRecord) (rs : List S3EventRecord) (key : Str),
      decodeKey r.s3.object.key = some key →
      (handler w ⟨r :: rs⟩).1.head? = some (.getObject r.s3.bucket.name key))
    ∧ ∀ s : Str, decodeKey s = decodeURIComponent (plusToSpace s) :=
  ⟨fun w r rs key hk => processRecords_head w r rs key hk, fun _ => rfl⟩

theorem C9_fetch_key_decoding_witness :
    (handler okWorld ⟨[recPlus]⟩).1.head? = some (.getObject "src".toList "a+b".toList) :=
  C9_fetch_key_decoding.1 okWorld recPlus [] "a+b".toList (by decide)

/-- C4: if processing a record throws (at any stage), the error
propagates unchanged to the invocation boundary and the invocation's
trace ends with the failing record's requests: nothing is caught, logged
and skipped, and no later record of the batch is started. -/
theorem C4_error_propagation (w : World) (r : S3EventRecord) (rs : List S3EventRecord)
    (e : JsError) (h : (processRecord w r).2 = .error e) :
    (handler w ⟨r :: rs⟩).2 = .error e
    ∧ (handler w ⟨r :: rs⟩).1 = (processRecord w r).1 := by
  have hpr := processRecords_cons_error w r rs e h
  constructor
  · show (processRecords w (r :: rs)).2 = _
    rw [hpr]
  · show (processRecords w (r :: rs)).1 = _
    rw [hpr]

theorem C4_error_propagation_witness :
    (handler fetchFailWorld ⟨[rec1, rec2]⟩).2 = .error .notFound
    ∧ (handler fetchFailWorld ⟨[rec1, rec2]⟩).1 = (processRecord fetchFailWorld rec1).1 :=
  C4_error_propagation fetchFailWorld rec1 [rec2] .notFound rfl

/-- A world whose variant put for the 100-pixel key fails. -/
def putFailWorld : World where
  destBucket := some "thumbs".toList
  getObject := fun _ _ => .ok [1, 2, 3]
  sharpResize := fun _ size => .ok ⟨[size], "jpeg".toList⟩
  putObject := fun _ k _ _ =>
    if k = "vacation-100x100.jpeg".toList then .error .writeError else .ok ()

/-- C5: if the fetch fails, the record's only request is the fetch
itself — no variant and no manifest write; if the size loop fails, the
record's requests are the fetch followed only by variant puts: the
manifest is never written, and the variant puts issued before the
failure remain in the trace with no compensating action. -/
theorem C5_failure_containment (w : World) (r : S3EventRecord) (key : Str) (body : Bytes)
    (tr : List Action) (e : JsError) :
    (decodeKey r.s3.object.key = some key →
      w.getObject r.s3.bucket.name key = .error e →
      (processRecord w r).1 = [.getObject r.s3.bucket.name key])
    ∧ (decodeKey r.s3.object.key = some key →
      w.getObject r.s3.bucket.name key = .ok body →
      processSizes w (pathParts key).1 body sizes = (tr, .error e) →
      (processRecord w r).1 = .getObject r.s3.bucket.name key :: tr
      ∧ ∀ a ∈ tr, ∃ size out, size ∈ sizes ∧ w.sharpResize body size = .ok out ∧
          a = .putObject w.destBucket (variantKey (pathParts key).1 size out.format)
            (.buffer out.data) none) := by
  constructor
  · intro hk hf
    rw [processRecord_fetch_error w r key e hk hf]
  · intro hk hf hsz
    refine ⟨by rw [processRecord_sizes_error w r key body tr e hk hf hsz], ?_⟩
    intro a ha
    exact processSizes_mem w (pathParts key).1 body sizes a (by rw [hsz]; exact ha)

theorem C5_failure_containment_witness :
    (processRecord fetchFailWorld rec1).1 = [.getObject "src".toList "vacation.jpg".toList]
    ∧ ((processRecord putFailWorld rec1).1
        = .getObject "src".toList "vacation.jpg".toList ::
          [.putObject (some "thumbs".toList) "vacation-50x50.jpeg".toList (.buffer [50]) none,
           .putObject (some "thumbs".toList) "vacation-100x100.jpeg".toList (.buffer [100]) none]
      ∧ ∀ a ∈ ([.putObject (some "thumbs".toList) "vacation-50x50.jpeg".toList
                  (.buffer [50]) none,
                .putObject (some "thumbs".toList) "vacation-100x100.jpeg".toList
                  (.buffer [100]) none] : List Action),
          ∃ size out, size ∈ sizes ∧ putFailWorld.sharpResize [1, 2, 3] size = .ok out ∧
            a = .putObject putFailWorld.destBucket
              (variantKey (pathParts "vacation.jpg".toList).1 size out.format)
              (.buffer out.data) none) :=
  ⟨(C5_failure_containment fetchFailWorld rec1 "vacation.jpg".toList [] [] .notFound).1
    (by decide) rfl,
   (C5_failure_containment putFailWorld rec1 "vacation.jpg".toList [1, 2, 3]
      [.putObject (some "thumbs".toList) "vacation-50x50.jpeg".toList (.buffer [50]) none,
       .putObject (some "thumbs".toList) "vacation-100x100.jpeg".toList (.buffer [100]) none]
      .writeError).2 (by decide) rfl rfl⟩

/-- A world with the destination-bucket configuration absent; its put
oracle, like the AWS SDK, rejects a request whose Bucket parameter is
undefined. -/
def noEnvWorld : World where
  destBucket := none
  getObject := fun _ _ => .ok [1, 2, 3]
  sharpResize := fun _ size => .ok ⟨[size], "jpeg".toList⟩
  putObject := fun b _ _ _ =>
    if b = none then .error (.other "MissingRequiredParameter".toList) else .ok ()

/-- C6: the claim fails on the code.  With DEST_BUCKET absent the
invocation does not fail at process start before any record: the first
record is fetched and resized, and the failure only arises when the
first destination write is attempted with the undefined bucket value. -/
theorem C6_counterexample :
    (handler noEnvWorld ⟨[rec1]⟩).1
      = [.getObject "src".toList "vacation.jpg".toList,
         .putObject none "vacation-50x50.jpeg".toList (.buffer [50]) none]
    ∧ (handler noEnvWorld ⟨[rec1]⟩).2 = .error (.other "MissingRequiredParameter".toList) :=
  ⟨by decide, rfl⟩

/-- C6 (amended): absence of DEST_BUCKET is not checked at all —
`process.env.DEST_BUCKET!` only silences the type checker.  Even with
the value absent the handler starts processing the batch (the first
record's fetch is issued), and every destination write simply carries
the undefined bucket value; failure, if any, arises only at those
writes. -/
theorem C6_no_config_check (w : World) (r : S3EventRecord) (rs : List S3EventRecord)
    (key : Str) (hnone : w.destBucket = none)
    (hk : decodeKey r.s3.object.key = some key) :
    (handler w ⟨r :: rs⟩).1.head? = some (.getObject r.s3.bucket.name key)
    ∧ ∀ a ∈ (handler w ⟨r :: rs⟩).1, ∀ bk k bd ct, a = .putObject bk k bd ct → bk = none := by
  refine ⟨processRecords_head w r rs key hk, ?_⟩
  intro a ha bk k bd ct heq
  rw [← hnone]
  exact processRecords_put_bucket w (r :: rs) a ha bk k bd ct heq

theorem C6_no_config_check_witness :
    (handler noEnvWorld ⟨[rec1]⟩).1.head?
      = some (.getObject "src".toList "vacation.jpg".toList)
    ∧ ∀ a ∈ (handler noEnvWorld ⟨[rec1]⟩).1, ∀ bk k bd ct,
        a = .putObject bk k bd ct → bk = none :=
  C6_no_config_check noEnvWorld rec1 [] "vacation.jpg".toList rfl (by decide)

/-- C1: for a record whose processing succeeds, the final request is the
manifest write: a put to the destination bucket at key
`{decoded-source-key}.thumbnails.json` with content type
"application/json", whose body is the JSON array of exactly three
entries in Size Specification order 50, 100, 200, each carrying the
variant's destination key, its retrieval URL, and width and height both
equal to that entry's requested size. -/
theorem C1_manifest_contract (w : World) (r : S3EventRecord) (key : Str)
    (hk : decodeKey r.s3.object.key = some key)
    (hok : (processRecord w r).2 = .ok ()) :
    ∃ (body : Bytes) (o1 o2 o3 : ResizeOut),
      w.getObject r.s3.bucket.name key = .ok body
      ∧ w.sharpResize body 50 = .ok o1
      ∧ w.sharpResize body 100 = .ok o2
      ∧ w.sharpResize body 200 = .ok o3
      ∧ (processRecord w r).1.getLast? = some (.putObject w.destBucket (manifestKey key)
          (.text (jsonEntries
            [⟨variantKey (pathParts key).1 50 o1.format,
              variantUrl w.destBucket (variantKey (pathParts key).1 50 o1.format), 50, 50⟩,
             ⟨variantKey (pathParts key).1 100 o2.format,
              variantUrl w.destBucket (variantKey (pathParts key).1 100 o2.format), 100, 100⟩,
             ⟨variantKey (pathParts key).1 200 o3.format,
              variantUrl w.destBucket (variantKey (pathParts key).1 200 o3.format), 200, 200⟩]))
          (some appJson)) := by
  cases hf : w.getObject r.s3.bucket.name key with
  | error e =>
    rw [processRecord_fetch_error w r key e hk hf] at hok
    simp at hok
  | ok body =>
    cases hsz : processSizes w (pathParts key).1 body sizes with
    | mk tr res =>
      cases res with
      | error e =>
        rw [processRecord_sizes_error w r key body tr e hk hf hsz] at hok
        simp at hok
      | ok l =>
        obtain ⟨o1, o2, o3, h50, h100, h200, hl, htr⟩ :=
          processSizes_sizes_ok w (pathParts key).1 body tr l hsz
        refine ⟨body, o1, o2, o3, rfl, h50, h100, h200, ?_⟩
        rw [processRecord_sizes_ok_trace w r key body tr l hk hf hsz]
        subst hl
        subst htr
        rfl

theorem C1_manifest_contract_witness :
    ∃ (body : Bytes) (o1 o2 o3 : ResizeOut),
      okWorld.getObject "src".toList "vacation.jpg".toList = .ok body
      ∧ okWorld.sharpResize body 50 = .ok o1
      ∧ okWorld.sharpResize body 100 = .ok o2
      ∧ okWorld.sharpResize body 200 = .ok o3
      ∧ (processRecord okWorld rec1).1.getLast?
        = some (.putObject okWorld.destBucket (manifestKey "vacation.jpg".toList)
            (.text (jsonEntries
              [⟨variantKey (pathParts "vacation.jpg".toList).1 50 o1.format,
                variantUrl okWorld.destBucket
                  (variantKey (pathParts "vacation.jpg".toList).1 50 o1.format), 50, 50⟩,
               ⟨variantKey (pathParts "vacation.jpg".toList).1 100 o2.format,
                variantUrl okWorld.destBucket
                  (variantKey (pathParts "vacation.jpg".toList).1 100 o2.format), 100, 100⟩,
               ⟨variantKey (pathParts "vacation.jpg".toList).1 200 o3.format,
                variantUrl okWorld.destBucket
                  (variantKey (pathParts "vacation.jpg".toList).1 200 o3.format), 200, 200⟩]))
            (some appJson)) :=
  C1_manifest_contract okWorld rec1 "vacation.jpg".toList (by decide) rfl

/-- C3: every variant put a record issues targets the destination bucket
with key `{base}-{size}x{size}.{format}`, where base is the first
component of `pathParts` of the decoded key and format is the output
format reported by the sharp encoder for that size — not the source
key's extension; and when the record succeeds there is such a put for
every size of the Size Specification. -/
theorem C3_destination_keys (w : World) (r : S3EventRecord) (key : Str) (body : Bytes)
    (hk : decodeKey r.s3.object.key = some key)
    (hf : w.getObject r.s3.bucket.name key = .ok body) :
    (∀ a ∈ (processRecord w r).1, ∀ bk dk d ct, a = .putObject bk dk (.buffer d) ct →
      ∃ size out, size ∈ sizes ∧ w.sharpResize body size = .ok out ∧
        bk = w.destBucket ∧ ct = none ∧ d = out.data ∧
        dk = variantKey (pathParts key).1 size out.format)
    ∧ ((processRecord w r).2 = .ok () →
      ∀ size ∈ sizes, ∃ out, w.sharpResize body size = .ok out ∧
        .putObject w.destBucket (variantKey (pathParts key).1 size out.format)
          (.buffer out.data) none ∈ (processRecord w r).1) := by
  have hvar : ∀ tr' : List Action, processSizes w (pathParts key).1 body sizes
      = (tr', (processSizes w (pathParts key).1 body sizes).2) →
      ∀ a ∈ tr', ∀ bk dk d ct, a = .putObject bk dk (.buffer d) ct →
      ∃ size out, size ∈ sizes ∧ w.sharpResize body size = .ok out ∧
        bk = w.destBucket ∧ ct = none ∧ d = out.data ∧
        dk = variantKey (pathParts key).1 size out.format := by
    intro tr' htr' a ha bk dk d ct heq
    obtain ⟨size, out, hmem, hres, hshape⟩ :=
      processSizes_mem w (pathParts key).1 body sizes a (by rw [htr']; exact ha)
    rw [heq] at hshape
    injection hshape with h1 h2 h3 h4
    injection h3 with h3
    exact ⟨size, out, hmem, hres, h1, h4, h3, h2⟩
  constructor
  · intro a ha bk dk d ct heq
    cases hsz : processSizes w (pathParts key).1 body sizes with
    | mk tr res =>
      cases res with
      | error e =>
        rw [processRecord_sizes_error w r key body tr e hk hf hsz] at ha
        simp at ha
        rcases ha with ha | ha
        · rw [ha] at heq; exact absurd heq (by simp)
        · exact hvar tr (by rw [hsz]) a ha bk dk d ct heq
      | ok l =>
        rw [processRecord_sizes_ok_trace w r key body tr l hk hf hsz] at ha
        simp at ha
        rcases ha with ha | ha | ha
        · rw [ha] at heq; exact absurd heq (by simp)
        · exact hvar tr (by rw [hsz]) a ha bk dk d ct heq
        · rw [ha] at heq; exact absurd heq (by simp)
  · intro hok size hsize
    cases hsz : processSizes w (pathParts key).1 body sizes with
    | mk tr res =>
      cases res with
      | error e =>
        rw [processRecord_sizes_error w r key body tr e hk hf hsz] at hok
        simp at hok
      | ok l =>
        obtain ⟨o1, o2, o3, h50, h100, h200, hl, htr⟩ :=
          processSizes_sizes_ok w (pathParts key).1 body tr l hsz
        rw [processRecord_sizes_ok_trace w r key body tr l hk hf hsz, htr]
        simp [sizes] at hsize
        rcases hsize with hsize | hsize | hsize <;> subst hsize
        · exact ⟨o1, h50, by simp⟩
        · exact ⟨o2, h100, by simp⟩
        · exact ⟨o3, h200, by simp⟩

theorem C3_destination_keys_witness :
    (∀ a ∈ (processRecord okWorld rec1).1, ∀ bk dk d ct,
      a = .putObject bk dk (.buffer d) ct →
      ∃ size out, size ∈ sizes ∧ okWorld.sharpResize [1, 2, 3] size = .ok out ∧
        bk = okWorld.destBucket ∧ ct = none ∧ d = out.data ∧
        dk = variantKey (pathParts "vacation.jpg".toList).1 size out.format)
    ∧ ((processRecord okWorld rec1).2 = .ok () →
      ∀ size ∈ sizes, ∃ out, okWorld.sharpResize [1, 2, 3] size = .ok out ∧
        .putObject okWorld.destBucket
          (variantKey (pathParts "vacation.jpg".toList).1 size out.format)
          (.buffer out.data) none ∈ (processRecord okWorld rec1).1) :=
  C3_destination_keys okWorld rec1 "vacation.jpg".toList [1, 2, 3] (by decide) rfl

/-- C7: when a record succeeds, its requests are exactly the fetch, the
three variant puts in Size Specification order 50, 100, 200, and then
the manifest put, in that order; and a batch beginning with a
succeeding record issues all of that record's requests before any
request of the remaining records, whose processing yields the rest of
the trace and the final result. -/
theorem C7_sequencing (w : World) (r : S3EventRecord) (rs : List S3EventRecord)
    (key : Str) (body : Bytes) (o1 o2 o3 : ResizeOut)
    (hk : decodeKey r.s3.object.key = some key)
    (hf : w.getObject r.s3.bucket.name key = .ok body)
    (h50 : w.sharpResize body 50 = .ok o1)
    (h100 : w.sharpResize body 100 = .ok o2)
    (h200 : w.sharpResize body 200 = .ok o3)
    (hput : ∀ b k bd ct, w.putObject b k bd ct = .ok ()) :
    (processRecord w r).1
      = [.getObject r.s3.bucket.name key,
         .putObject w.destBucket (variantKey (pathParts key).1 50 o1.format)
           (.buffer o1.data) none,
         .putObject w.destBucket (variantKey (pathParts key).1 100 o2.format)
           (.buffer o2.data) none,
         .putObject w.destBucket (variantKey (pathParts key).1 200 o3.format)
           (.buffer o3.data) none,
         .putObject w.destBucket (manifestKey key)
           (.text (jsonEntries
             [mkEntry w.destBucket (variantKey (pathParts key).1 50 o1.format) 50,
              mkEntry w.destBucket (variantKey (pathParts key).1 100 o2.format) 100,
              mkEntry w.destBucket (variantKey (pathParts key).1 200 o3.format) 200]))
           (some appJson)]
    ∧ handler w ⟨r :: rs⟩
      = ((processRecord w r).1 ++ (processRecords w rs).1, (processRecords w rs).2) := by
  have hsz : processSizes w (pathParts key).1 body sizes
      = ([.putObject w.destBucket (variantKey (pathParts key).1 50 o1.format)
            (.buffer o1.data) none,
          .putObject w.destBucket (variantKey (pathParts key).1 100 o2.format)
            (.buffer o2.data) none,
          .putObject w.destBucket (variantKey (pathParts key).1 200 o3.format)
            (.buffer o3.data) none],
         .ok [mkEntry w.destBucket (variantKey (pathParts key).1 50 o1.format) 50,
              mkEntry w.destBucket (variantKey (pathParts key).1 100 o2.format) 100,
              mkEntry w.destBucket (variantKey (pathParts key).1 200 o3.format) 200]) := by
    simp [processSizes, sizes, h50, h100, h200, hput]
  have hres : (processRecord w r).2 = .ok () := by
    simp [processRecord, hk, hf, hsz, hput]
  exact ⟨by rw [processRecord_sizes_ok_trace w r key body _ _ hk hf hsz]; rfl,
    processRecords_cons_ok w r rs hres⟩

theorem C7_sequencing_witness :
    (processRecord okWorld rec1).1
      = [.getObject "src".toList "vacation.jpg".toList,
         .putObject okWorld.destBucket
           (variantKey (pathParts "vacation.jpg".toList).1 50 "jpeg".toList)
           (.buffer [50]) none,
         .putObject okWorld.destBucket
           (variantKey (pathParts "vacation.jpg".toList).1 100 "jpeg".toList)
           (.buffer [100]) none,
         .putObject okWorld.destBucket
           (variantKey (pathParts "vacation.jpg".toList).1 200 "jpeg".toList)
           (.buffer [200]) none,
         .putObject okWorld.destBucket (manifestKey "vacation.jpg".toList)
           (.text (jsonEntries
             [mkEntry okWorld.destBucket
                (variantKey (pathParts "vacation.jpg".toList).1 50 "jpeg".toList) 50,
              mkEntry okWorld.destBucket
                (variantKey (pathParts "vacation.jpg".toList).1 100 "jpeg".toList) 100,
              mkEntry okWorld.destBucket
                (variantKey (pathParts "vacation.jpg".toList).1 200 "jpeg".toList) 200]))
           (some appJson)]
    ∧ handler okWorld ⟨[rec1, rec2]⟩
      = ((processRecord okWorld rec1).1 ++ (processRecords okWorld [rec2]).1,
         (processRecords okWorld [rec2]).2) :=
  C7_sequencing okWorld rec1 [rec2] "vacation.jpg".toList [1, 2, 3]
    ⟨[50], "jpeg".toList⟩ ⟨[100], "jpeg".toList⟩ ⟨[200], "jpeg".toList⟩
    (by decide) rfl rfl rfl rfl (fun _ _ _ _ => rfl)

end ThumbnailResizer
